import Mathlib

/-!
Shallow embedding of the nevada-draw-sim parsing core
(src/scripts/parse_ndow_pdf_text.py, parse_ndow_folder.py,
import_ndow_urls.py, parse_ndow_pdf.py) and proofs about it.

Strings are modelled through their character lists so that every
definition is executable and kernel-reducible.  Python string methods
(strip, replace, lower, split, startswith, the regexes used by the
scripts) are re-implemented character by character below; the Python
regexes only use ASCII character classes on these inputs, so the ASCII
Char predicates of Lean are the faithful model.
-/

namespace Ndow

/-- Model of Python's "s.startswith(pre)": is the first list a prefix of
the second.  Defined by recursion so that it reduces in the kernel. -/
def leadsWith : List Char → List Char → Bool
  | [], _ => true
  | _ :: _, [] => false
  | a :: as, b :: bs => a == b && leadsWith as bs

/-- String wrapper of leadsWith: "s.startswith(pre)". -/
def startsS (pre s : String) : Bool := leadsWith pre.data s.data

/-- Model of Python's "needle in hay" / searching for a literal substring. -/
def containsCh (needle : List Char) : List Char → Bool
  | [] => needle.isEmpty
  | c :: cs => leadsWith needle (c :: cs) || containsCh needle cs

/-- String wrapper of containsCh. -/
def containsS (needle hay : String) : Bool := containsCh needle.data hay.data

/-- Model of Python's "s.strip()": drop whitespace from both ends. -/
def trimS (s : String) : String :=
  ⟨((s.data.dropWhile Char.isWhitespace).reverse.dropWhile Char.isWhitespace).reverse⟩

/-- Model of Python's "s.lower()" on the ASCII text these scripts handle. -/
def toLowerS (s : String) : String := ⟨s.data.map Char.toLower⟩

/-- Worker for removeOcc: delete every occurrence of the non-empty
pattern o :: os, scanning left to right (Python's "s.replace(old, '')").
The Nat argument is fuel, making the recursion structural so that the
definition reduces in the kernel; every step consumes at least one
character while spending exactly one unit of fuel, so with the length of
the scanned list as initial fuel the fuel-exhausted branch is never
taken. -/
def removeOccGo (o : Char) (os : List Char) : Nat → List Char → List Char
  | _, [] => []
  | 0, l => l
  | fuel + 1, c :: cs =>
    if leadsWith (o :: os) (c :: cs) then removeOccGo o os fuel (cs.drop os.length)
    else c :: removeOccGo o os fuel cs

/-- Model of Python's "s.replace(old, '')" as used by the scripts (the
scripts only ever replace a label with the empty string). -/
def removeOcc (old s : String) : String :=
  match old.data with
  | [] => s
  | o :: os => ⟨removeOccGo o os s.data.length s.data⟩

/-- Model of Python's whitespace "str.split()" (split on whitespace runs,
dropping empty pieces): worker carrying the current token. -/
def splitWsGo (cur : List Char) : List Char → List String
  | [] => if cur.isEmpty then [] else [⟨cur⟩]
  | c :: cs =>
    if c.isWhitespace then
      if cur.isEmpty then splitWsGo [] cs else (⟨cur⟩ : String) :: splitWsGo [] cs
    else splitWsGo (cur ++ [c]) cs

/-- Model of Python's "title.split()". -/
def splitWs (s : String) : List String := splitWsGo [] s.data

/-- Model of Python's " ".join(parts). -/
def joinSpaceGo : List String → List Char
  | [] => []
  | [s] => s.data
  | s :: t :: rest => s.data ++ ' ' :: joinSpaceGo (t :: rest)

/-- String wrapper of joinSpaceGo. -/
def joinSpace (ss : List String) : String := ⟨joinSpaceGo ss⟩

/-- Require at least one whitespace character, then skip the whole run
(the deterministic reading of a maximal-munch regex piece). -/
def wsRun1 : List Char → Option (List Char)
  | [] => none
  | c :: cs => if c.isWhitespace then some (cs.dropWhile Char.isWhitespace) else none

/-- Require at least one digit, then skip the whole run. -/
def digRun1 : List Char → Option (List Char)
  | [] => none
  | c :: cs => if c.isDigit then some (cs.dropWhile Char.isDigit) else none

/-- Does the footer pattern (the regex "Page\s+\d+\s+of\s+\d+" of the
scripts) match starting exactly at this position?  For this pattern,
maximal munch agrees with backtracking because the pieces on either side
of each boundary have disjoint character classes. -/
def footerAt (cs : List Char) : Bool :=
  match cs with
  | 'P' :: 'a' :: 'g' :: 'e' :: r0 =>
    (match wsRun1 r0 with
     | none => false
     | some r1 =>
       match digRun1 r1 with
       | none => false
       | some r2 =>
         match wsRun1 r2 with
         | none => false
         | some r3 =>
           match r3 with
           | 'o' :: 'f' :: r4 =>
             (match wsRun1 r4 with
              | none => false
              | some r5 => (digRun1 r5).isSome)
           | _ => false)
  | _ => false

/-- Model of "re.search(r'Page\s+\d+\s+of\s+\d+', line)": does the footer
pattern match at any position? -/
def hasFooter : List Char → Bool
  | [] => footerAt []
  | c :: cs => footerAt (c :: cs) || hasFooter cs

/-- Numeric value of a digit list (most significant first). -/
def digitsVal (ds : List Char) : Nat :=
  ds.foldl (fun a c => 10 * a + (c.toNat - 48)) 0

/-- Value of one regex token matched by "\d[\d,]*": Python strips the
commas and parses the remaining digits. -/
def tokVal (tok : List Char) : Nat := digitsVal (tok.filter Char.isDigit)

/-- Scanner for "re.findall(r'\d[\d,]*', line)": a token starts at a
digit and greedily extends over digits and commas; re.findall returns
the non-overlapping leftmost matches.  The first argument holds the
token being read (none while between tokens). -/
def intsGo : Option (List Char) → List Char → List Nat
  | none, [] => []
  | some tok, [] => [tokVal tok]
  | none, c :: cs => if c.isDigit then intsGo (some [c]) cs else intsGo none cs
  | some tok, c :: cs =>
    if c.isDigit || c == ',' then intsGo (some (tok ++ [c])) cs
    else tokVal tok :: intsGo none cs

/-- Model of ints_from_line of all three text scripts:
return [int(x.replace(",", "")) for x in re.findall(r"\d[\d,]*", line)]. -/
def ints_from_line (s : String) : List Nat := intsGo none s.data

/-- Model of "re.match(r'^\d+\b', l)": the line starts with a non-empty
digit run whose end is a word boundary.  Backtracking cannot help the
regex here: any shorter digit prefix is followed by a digit, which is a
word character, so only the maximal run can be followed by a boundary. -/
def rowStart (s : String) : Bool :=
  match s.data with
  | [] => false
  | c :: cs =>
    c.isDigit &&
      (match cs.dropWhile Char.isDigit with
       | [] => true
       | d :: _ => !(d.isAlphanum || d == '_'))

/-- Model of "re.match(r'^(R|NR)\s+\S+', line)" (the anchor of
parse_ndow_folder.py): "R" or "NR", then at least one whitespace
character, then at least one non-whitespace character. -/
def matchResAnchor (s : String) : Bool :=
  match s.data with
  | 'N' :: 'R' :: rest => wsThenNonWs rest
  | 'R' :: rest => wsThenNonWs rest
  | _ => false
where
  wsThenNonWs (cs : List Char) : Bool :=
    match cs with
    | [] => false
    | c :: _ => c.isWhitespace && !(cs.dropWhile Char.isWhitespace).isEmpty

/-- Model of "re.match(r'^\d+$', s)" on an already-stripped string: a
non-empty string of digits. -/
def allDigits (s : String) : Bool := !s.data.isEmpty && s.data.all Char.isDigit

/-- One reconstructed row of a hunt block.  Fields follow the dicts built
by parse_block_rows in the three text scripts. -/
structure Row where
  bp : Nat
  successfulByChoice : List Nat
  totalByChoice : List Nat
  totalApplicants : Nat
deriving DecidableEq, Repr, Inhabited

/-- Body of one parse_block_rows iteration, shared verbatim by
parse_ndow_pdf_text.py, parse_ndow_folder.py and import_ndow_urls.py:
given nums = ints_from_line(line), skip the line if nums is empty
(continue on "not nums") or if fewer than 5 integers follow the first
(continue on "len(remaining) < 5"); otherwise bp is the first integer,
the last 5 of the remainder are totalByChoice, everything before them is
successfulByChoice padded with zeros to length 5, and totalApplicants is
the sum of totalByChoice. -/
def rowOfNums (nums : List Nat) : Option Row :=
  match nums with
  | [] => none
  | bp :: remaining =>
    if remaining.length < 5 then none
    else
      let success_count := remaining.length - 5
      let success_raw := remaining.take success_count
      let totals := (remaining.drop success_count).take 5
      let successful := (success_raw ++ [0, 0, 0, 0, 0]).take 5
      some ⟨bp, successful, totals, totals.sum⟩

/-- The for-loop of parse_block_rows, before the final sort. -/
def reconstructRows : List String → List Row
  | [] => []
  | line :: rest =>
    match rowOfNums (ints_from_line line) with
    | none => reconstructRows rest
    | some r => r :: reconstructRows rest

/-- Sort key order used by "rows.sort(key=lambda r: r['bp'])". -/
def bpLE (a b : Row) : Prop := a.bp ≤ b.bp

instance : DecidableRel bpLE := fun a b => inferInstanceAs (Decidable (a.bp ≤ b.bp))

instance : IsTotal Row bpLE := ⟨fun a b => Nat.le_total a.bp b.bp⟩

instance : IsTrans Row bpLE := ⟨fun _ _ _ => Nat.le_trans⟩

instance : IsRefl Row bpLE := ⟨fun a => Nat.le_refl a.bp⟩

/-- Model of parse_block_rows of the three text scripts.  Python's
"rows.sort(key=lambda r: r['bp'])" is a stable ascending sort by bp;
insertion sort with the non-strict key order is stable and ascending,
and the output of a stable ascending sort is uniquely determined, so
this is the faithful model of list.sort. -/
def parse_block_rows (row_lines : List String) : List Row :=
  List.insertionSort bpLE (reconstructRows row_lines)

/-- Exponent tail of a Python float literal, after the letter e or E: an
optional sign and a non-empty digit run that must consume the rest of
the string. -/
def parseExpTail (cs : List Char) : Option Int :=
  let p : Int × List Char :=
    match cs with
    | '-' :: r => (-1, r)
    | '+' :: r => (1, r)
    | r => (1, r)
  let ds := p.2.takeWhile Char.isDigit
  let r1 := p.2.dropWhile Char.isDigit
  if ds.isEmpty then none
  else if r1.isEmpty then some (p.1 * (digitsVal ds : Int))
  else none

/-- Truncation toward zero of sgn * (ip.fp) * 10^e, the value int(...)
extracts from a parsed float: natural-number division floors the
magnitude and the sign is applied afterwards. -/
def floatTruncVal (sgn : Int) (ip fp : List Char) (e : Int) : Int :=
  let n : Nat := digitsVal (ip ++ fp)
  let shift : Int := e - (fp.length : Int)
  let mag : Nat := if 0 ≤ shift then n * 10 ^ shift.toNat else n / 10 ^ (-shift).toNat
  sgn * (mag : Int)

/-- Model of Python's int(float(s)) on a stripped, comma-free string:
an optional sign, an integer part and/or a fractional part with at least
one digit between them, and an optional exponent; the value is truncated
toward zero.  Inputs outside this grammar yield none, matching the
except branch of clean_int; Python's float also accepts underscore
separators and the inf/nan words, which never occur in these tables
(int(float("inf")) moreover raises, landing in the same except → 0
branch as none does here). -/
def parseNum (cs : List Char) : Option Int :=
  let p : Int × List Char :=
    match cs with
    | '-' :: r => (-1, r)
    | '+' :: r => (1, r)
    | r => (1, r)
  let ip := p.2.takeWhile Char.isDigit
  let r1 := p.2.dropWhile Char.isDigit
  let q : List Char × List Char :=
    match r1 with
    | '.' :: r2 => (r2.takeWhile Char.isDigit, r2.dropWhile Char.isDigit)
    | _ => ([], r1)
  if ip.isEmpty && q.1.isEmpty then none
  else
    match q.2 with
    | [] => some (floatTruncVal p.1 ip q.1 0)
    | 'e' :: r4 => (parseExpTail r4).map (floatTruncVal p.1 ip q.1)
    | 'E' :: r4 => (parseExpTail r4).map (floatTruncVal p.1 ip q.1)
    | _ => none

/-- Model of clean_int of parse_ndow_pdf.py: None becomes 0; otherwise
strip the string and delete commas; the empty string becomes 0; then
try int(float(s)), any failure becoming 0. -/
def clean_int (x : Option String) : Int :=
  match x with
  | none => 0
  | some v =>
    let s := removeOcc "," (trimS v)
    if s.data.isEmpty then 0
    else
      match parseNum s.data with
      | some n => n
      | none => 0

/-- One normalized table row of parse_ndow_pdf.py (fields of the dict
built by normalize_table; clean_int can in principle produce negative
values, hence Int). -/
structure TRow where
  bp : Int
  successfulByChoice : List Int
  totalByChoice : List Int
  totalApplicants : Int
deriving DecidableEq, Repr, Inhabited

/-- Sort key order of "data_rows.sort(key=lambda r: r['bp'])". -/
def bpLEI (a b : TRow) : Prop := a.bp ≤ b.bp

instance : DecidableRel bpLEI := fun a b => inferInstanceAs (Decidable (a.bp ≤ b.bp))

instance : IsTotal TRow bpLEI := ⟨fun a b => Int.le_total a.bp b.bp⟩

instance : IsTrans TRow bpLEI := ⟨fun _ _ _ => Int.le_trans⟩

/-- Model of "str(c or '').strip()" applied to a table cell. -/
def cellStr (c : Option String) : String := trimS (c.getD "")

/-- Model of "' '.join(str(c or '').strip() for c in row)". -/
def rowJoin (row : List (Option String)) : String := joinSpace (row.map cellStr)

/-- The data-row loop of normalize_table: stop at a row whose first cell
lowercases to "total"; skip rows whose first cell is not a non-empty
digit string; otherwise clean every trailing cell, right-pad with zeros
to 11 cells, and slice out the three column groups, reading
totalApplicants from cell index 10.  (Python indexes row[0] and would
raise on a fully empty row, which pdfplumber tables never produce; an
empty row is read here as a missing first cell.)  tableDataRow is the
dict appended for one accepted data row. -/
def tableDataRow (row : List (Option String)) : TRow :=
  let first := trimS ((row.headD none).getD "")
  let cells := row.tail.map clean_int
  let cells2 := cells ++ List.replicate (11 - cells.length) 0
  ⟨clean_int (some first), cells2.take 5, (cells2.drop 5).take 5, cells2.getD 10 0⟩

/-- The loop of normalize_table over the rows after the header (see
tableDataRow for the emitted dict). -/
def normRowsLoop : List (List (Option String)) → List TRow
  | [] => []
  | row :: rest =>
    let first := trimS ((row.headD none).getD "")
    if toLowerS first = "total" then []
    else if first.data.isEmpty || !allDigits (trimS first) then normRowsLoop rest
    else tableDataRow row :: normRowsLoop rest

/-- Model of normalize_table of parse_ndow_pdf.py: find the first row
whose joined text contains "Bonus Points" (returning None when absent),
run the data-row loop on the rows after it, and stable-sort the result
ascending by bp. -/
def normalize_table (table : List (List (Option String))) : Option (List TRow) :=
  match table.findIdx? (fun r => containsS "Bonus Points" (rowJoin r)) with
  | none => none
  | some header_idx =>
    some (List.insertionSort bpLEI (normRowsLoop (table.drop (header_idx + 1))))

/-- A page-tagged line of extracted text, as the (pnum, line) pairs all
three line-based scripts build. -/
structure LineRec where
  page : Nat
  text : String
deriving DecidableEq, Repr, Inhabited

/-- Model of Python's text.split("\n") (empty pieces kept; they are
filtered next). -/
def splitNlGo (cur : List Char) : List Char → List String
  | [] => [⟨cur⟩]
  | c :: cs =>
    if c == '\n' then (⟨cur⟩ : String) :: splitNlGo [] cs
    else splitNlGo (cur ++ [c]) cs

/-- String wrapper of splitNlGo. -/
def splitNl (s : String) : List String := splitNlGo [] s.data

/-- The per-page normalization shared by the three line-based scripts:
split the page text into lines, strip each, drop empties, drop lines
matching the pagination-footer pattern, and tag with the page number. -/
def normalizePage (pnum : Nat) (text : String) : List LineRec :=
  ((((splitNl text).map trimS).filter (fun l => !l.data.isEmpty)).filter
      (fun l => !hasFooter l.data)).map (fun l => ⟨pnum, l⟩)

/-- The whole-document line stream: pages are numbered from 1 and lines
keep page order and within-page order. -/
def normalizePages (pages : List String) : List LineRec :=
  (pages.enum.map (fun p => normalizePage (p.1 + 1) p.2)).flatten

/-- The metadata fields of a parse_ndow_pdf_text.py block (all start as
None in the block dict). -/
structure TextMeta where
  units : Option String
  season : Option String
  quota : Option Nat
  weapon : Option String
deriving DecidableEq, Repr, Inhabited

/-- The initial metadata of a freshly opened block. -/
def emptyTextMeta : TextMeta := ⟨none, none, none, none⟩

/-- The if/elif label chain of the metadata loop of parse_pdf in
parse_ndow_pdf_text.py: "Units:", "Season:", "Quota:" (first integer of
the line, None when the line has none) and "Weapon" update their field;
any other line leaves the metadata unchanged. -/
def updTextMeta (m : TextMeta) (l : String) : TextMeta :=
  if startsS "Units:" l then ⟨some (trimS (removeOcc "Units:" l)), m.season, m.quota, m.weapon⟩
  else if startsS "Season:" l then ⟨m.units, some (trimS (removeOcc "Season:" l)), m.quota, m.weapon⟩
  else if startsS "Quota:" l then ⟨m.units, m.season, (ints_from_line l).head?, m.weapon⟩
  else if startsS "Weapon" l then ⟨m.units, m.season, m.quota, some (trimS (removeOcc "Weapon" l))⟩
  else m

/-- The metadata while-loop of parse_pdf in parse_ndow_pdf_text.py, in
suffix form: each line first runs the label chain; a line starting with
"Bonus Points" ends the loop and is consumed (Python leaves i on it and
the caller then does i += 1); a line equal to the anchor ends the loop
unconsumed (Python does i -= 1 and the caller then does i += 1); the
stream ending returns the empty suffix. -/
def textMetaGo (m : TextMeta) : List LineRec → TextMeta × List LineRec
  | [] => (m, [])
  | lr :: rest =>
    let m2 := updTextMeta m lr.text
    if startsS "Bonus Points" lr.text then (m2, rest)
    else if lr.text = "NR Elk Antlered" then (m2, lr :: rest)
    else textMetaGo m2 rest

/-- The row-collection while-loop of parse_pdf in
parse_ndow_pdf_text.py, in suffix form: a "Total" line sets endPage to
its own page and is consumed; an anchor line sets endPage to its own
page (the p of the current line, before Python's i -= 1) and is not
consumed; a line matching the row pattern is collected; the stream
ending leaves endPage unset (none) - the Python block dict never
receives an endPage key in that case. -/
def textRowGo (acc : List String) : List LineRec → List String × Option Nat × List LineRec
  | [] => (acc, none, [])
  | lr :: rest =>
    if startsS "Total" lr.text then (acc, some lr.page, rest)
    else if lr.text = "NR Elk Antlered" then (acc, some lr.page, lr :: rest)
    else if rowStart lr.text then textRowGo (acc ++ [lr.text]) rest
    else textRowGo acc rest

/-- A finished block of parse_ndow_pdf_text.py.  The constant fields
state/year/residency/species/category/sourcePdf of the Python dict are
fixed literals there and are omitted; endPage is an Option because the
Python dict only receives the key at a Total or anchor stop. -/
structure TextBlock where
  title : String
  units : Option String
  season : Option String
  quota : Option Nat
  weapon : Option String
  rows : List Row
  startPage : Nat
  endPage : Option Nat
deriving DecidableEq, Repr, Inhabited

/-- The suffix returned by textMetaGo is never longer than the input. -/
theorem textMetaGo_len (m : TextMeta) (l : List LineRec) :
    (textMetaGo m l).2.length ≤ l.length := by
  induction l generalizing m with
  | nil => simp [textMetaGo]
  | cons lr rest ih =>
    simp only [textMetaGo]
    split
    · simp
    · split
      · simp
      · exact (ih _).trans (Nat.le_succ _)

/-- The suffix returned by textRowGo is never longer than the input. -/
theorem textRowGo_len (acc : List String) (l : List LineRec) :
    (textRowGo acc l).2.2.length ≤ l.length := by
  induction l generalizing acc with
  | nil => simp [textRowGo]
  | cons lr rest ih =>
    simp only [textRowGo]
    split
    · simp
    · split
      · simp
      · split
        · exact (ih _).trans (Nat.le_succ _)
        · exact (ih _).trans (Nat.le_succ _)

/-- The outer while-loop of parse_pdf in parse_ndow_pdf_text.py: scan
for the exact anchor line "NR Elk Antlered"; on a match run the metadata
loop, then the row loop, reconstruct the rows, and keep the block only
when at least one row resulted; then continue after the lines the block
consumed (Python's shared index i resumes exactly there).  Non-anchor
lines are skipped. -/
def scanText : List LineRec → List TextBlock
  | [] => []
  | lr :: rest =>
    if lr.text = "NR Elk Antlered" then
      let mr := textMetaGo emptyTextMeta rest
      let rr := textRowGo [] mr.2
      let rows := parse_block_rows rr.1
      let tail := scanText rr.2.2
      if rows.isEmpty then tail
      else ⟨lr.text, mr.1.units, mr.1.season, mr.1.quota, mr.1.weapon, rows, lr.page, rr.2.1⟩ :: tail
    else scanText rest
termination_by l => l.length
decreasing_by
  · calc (textRowGo [] (textMetaGo emptyTextMeta rest).2).2.2.length
        ≤ (textMetaGo emptyTextMeta rest).2.length := textRowGo_len _ _
      _ ≤ rest.length := textMetaGo_len _ _
      _ < (lr :: rest).length := by simp
  · simp

/-- Model of parse_pdf of parse_ndow_pdf_text.py on the per-page text
supplied by the external extraction layer. -/
def parse_pdf (pages : List String) : List TextBlock := scanText (normalizePages pages)

/-- The metadata fields of a parse_ndow_folder.py block. -/
structure FMeta where
  units : Option String
  season : Option String
  quota : Option Nat
  weapon : Option String
deriving DecidableEq, Repr, Inhabited

/-- The if/elif label chain of extract_metadata in
parse_ndow_folder.py (same labels as the pdf_text variant). -/
def updFMeta (m : FMeta) (l : String) : FMeta :=
  if startsS "Units:" l then ⟨some (trimS (removeOcc "Units:" l)), m.season, m.quota, m.weapon⟩
  else if startsS "Season:" l then ⟨m.units, some (trimS (removeOcc "Season:" l)), m.quota, m.weapon⟩
  else if startsS "Quota:" l then ⟨m.units, m.season, (ints_from_line l).head?, m.weapon⟩
  else if startsS "Weapon" l then ⟨m.units, m.season, m.quota, some (trimS (removeOcc "Weapon" l))⟩
  else m

/-- The loop of extract_metadata in parse_ndow_folder.py, in suffix
form: run the label chain on each line and stop at the first line
starting with "Bonus Points", leaving that line unconsumed (the caller
inspects lines[j]); unlike the other two variants, this loop has no
guard against running into a new anchor.  The returned suffix starts at
the stopping line (empty when the stream ended first). -/
def extractMetaGo (m : FMeta) : List LineRec → FMeta × List LineRec
  | [] => (m, [])
  | lr :: rest =>
    let m2 := updFMeta m lr.text
    if startsS "Bonus Points" lr.text then (m2, lr :: rest)
    else extractMetaGo m2 rest

/-- The row-collection loop of parse_single_pdf in parse_ndow_folder.py,
in suffix form.  ep0 is the end_page initialized to the header line's
page, returned unchanged when the stream ends; prev tracks the page of
the previously scanned line (pages[k-1]), so that a new anchor yields
the page of the line immediately preceding it; a "Total" line yields its
own page. -/
def folderRowGo (anchorP : String → Bool) (acc : List String) (ep0 prev : Nat) :
    List LineRec → List String × Nat
  | [] => (acc, ep0)
  | lr :: rest =>
    if startsS "Total" lr.text then (acc, lr.page)
    else if anchorP lr.text then (acc, prev)
    else if rowStart lr.text then folderRowGo anchorP (acc ++ [lr.text]) ep0 lr.page rest
    else folderRowGo anchorP acc ep0 lr.page rest

/-- The identity species synonym table of infer_species_and_category
(species_map.get(raw_species, raw_species) with a map sending each key
to itself). -/
def species_map_get (raw : String) : String :=
  if raw = "elk" then "elk"
  else if raw = "deer" then "deer"
  else if raw = "antelope" then "antelope"
  else if raw = "sheep" then "sheep"
  else if raw = "goat" then "goat"
  else raw

/-- Model of infer_species_and_category of parse_ndow_folder.py: split
the title on whitespace; the first token is the residency (call sites
pass anchor-matched titles, whose first token exists and is exactly "R"
or "NR"; Python would raise on an empty title and "" stands for that
impossible case); the second token, lowercased, maps through the synonym
table to the species; the remaining tokens joined are the category, or
None when empty. -/
def infer_species_and_category (title : String) :
    String × Option String × Option String :=
  let parts := splitWs title
  let residency := parts.headD ""
  match parts.tail with
  | [] => (residency, none, none)
  | sp :: restTok =>
    let species := species_map_get (toLowerS sp)
    let c := trimS (joinSpace restTok)
    (residency, some species, if c.data.isEmpty then none else some c)

/-- A finished block of parse_ndow_folder.py (the constant state field
and the sourceFile naming are external and omitted; year is the YEAR
constant passed through). -/
structure FolderBlock where
  year : Nat
  residency : String
  species : Option String
  category : Option String
  title : String
  units : Option String
  season : Option String
  quota : Option Nat
  weapon : Option String
  rows : List Row
  startPage : Nat
  endPage : Nat
deriving DecidableEq, Repr, Inhabited

/-- The outer while-loop of parse_single_pdf in parse_ndow_folder.py: at
every line matching the residency anchor, read metadata from the next
line on (without any anchor guard), require the stopping line to start
with "Bonus Points" (otherwise the block is skipped), collect row lines
after it, and keep the block only when reconstruction produced at least
one row.  The outer index always advances by exactly one line, so the
scan continues right after the anchor line, not after the block. -/
def scanFolder (year : Nat) : List LineRec → List FolderBlock
  | [] => []
  | lr :: rest =>
    let tail := scanFolder year rest
    if matchResAnchor lr.text then
      let rsc := infer_species_and_category lr.text
      let mr := extractMetaGo ⟨none, none, none, none⟩ rest
      match mr.2 with
      | [] => tail
      | hb :: after =>
        if startsS "Bonus Points" hb.text then
          let rr := folderRowGo matchResAnchor [] hb.page hb.page after
          let rows := parse_block_rows rr.1
          if rows.isEmpty then tail
          else
            ⟨year, rsc.1, rsc.2.1, rsc.2.2, lr.text, mr.1.units, mr.1.season, mr.1.quota,
              mr.1.weapon, rows, lr.page, rr.2⟩ :: tail
        else tail
    else tail

/-- Model of parse_single_pdf of parse_ndow_folder.py on the per-page
text supplied by the external extraction layer. -/
def parse_single_pdf (year : Nat) (pages : List String) : List FolderBlock :=
  scanFolder year (normalizePages pages)

/-- Model of infer_residency_from_url of import_ndow_urls.py. -/
def infer_residency_from_url (url : String) : Option String :=
  let u := toLowerS url
  if containsS "nonresident" u then some "NR"
  else if containsS "resident" u then some "R"
  else none

/-- Model of infer_species_from_url of import_ndow_urls.py, taking the
document file name already extracted from the URL (Python derives it
with urlparse and Path.name, part of the external path layer). -/
def infer_species_from_name (name : String) : String :=
  let u := toLowerS name
  if containsS "elk" u then "elk"
  else if containsS "mule-deer" u || containsS "mule_deer" u then "deer"
  else if containsS "antelope" u then "antelope"
  else if containsS "bighorn" u then "sheep"
  else if containsS "goat" u then "goat"
  else if containsS "moose" u then "moose"
  else if containsS "bear" u then "bear"
  else "unknown"

/-- The metadata fields of an import_ndow_urls.py block (units comes
from the anchor line itself and is not part of this loop). -/
structure UMeta where
  season : Option String
  quota : Option Nat
  weapon : Option String
deriving DecidableEq, Repr, Inhabited

/-- The if/elif label chain of the metadata loop of parse_pdf_blocks. -/
def updUMeta (m : UMeta) (l : String) : UMeta :=
  if startsS "Season:" l then ⟨some (trimS (removeOcc "Season:" l)), m.quota, m.weapon⟩
  else if startsS "Quota:" l then ⟨m.season, (ints_from_line l).head?, m.weapon⟩
  else if startsS "Weapon" l then ⟨m.season, m.quota, some (trimS (removeOcc "Weapon" l))⟩
  else m

/-- The metadata while-loop of parse_pdf_blocks in import_ndow_urls.py,
in suffix form: run the label chain; stop at the first line starting
with "Bonus Points" or - the safety guard - at a new "Units:" anchor,
leaving the stopping line unconsumed in both cases (the caller inspects
lines[j]). -/
def urlsMetaGo (m : UMeta) : List LineRec → UMeta × List LineRec
  | [] => (m, [])
  | lr :: rest =>
    let m2 := updUMeta m lr.text
    if startsS "Bonus Points" lr.text then (m2, lr :: rest)
    else if startsS "Units:" lr.text then (m2, lr :: rest)
    else urlsMetaGo m2 rest

/-- A finished block of import_ndow_urls.py (state and the source
url/file fields are external constants and omitted; year is the YEAR
constant). -/
structure UrlBlock where
  year : Nat
  residency : Option String
  species : String
  title : String
  units : String
  season : Option String
  quota : Option Nat
  weapon : Option String
  rows : List Row
  startPage : Nat
  endPage : Nat
deriving DecidableEq, Repr, Inhabited

/-- One step of the prev_nonempty tracking of parse_pdf_blocks: after
scanning a line, the most recent line with non-empty stripped text (in
stripped form, as prev_nonempty returns lines[j].strip()). -/
def updPrev (p : Option String) (lr : LineRec) : Option String :=
  if (trimS lr.text).data.isEmpty then p else some (trimS lr.text)

/-- The outer while-loop of parse_pdf_blocks in import_ndow_urls.py,
parametrized by the URL-derived classification hints computed once
before the loop (inferred_res, inferred_species) and threading the
previous non-empty line for the title lookup.  At every line starting
with "Units:": the title is the previous non-empty line or "Unknown
Title"; units is the anchor line with its label removed; metadata is
read until "Bonus Points" or a new "Units:"; the block is skipped unless
the stopping line starts with "Bonus Points"; rows are collected after
it; a block with rows is emitted with residency preferring the "NR "/
"R " title prefix over the hint and species always the hint.  The outer
index advances one line at a time. -/
def scanUrls (year : Nat) (hintRes : Option String) (hintSp : String)
    (prevNE : Option String) : List LineRec → List UrlBlock
  | [] => []
  | lr :: rest =>
    let tail := scanUrls year hintRes hintSp (updPrev prevNE lr) rest
    if startsS "Units:" lr.text then
      let title := prevNE.getD "Unknown Title"
      let units := trimS (removeOcc "Units:" lr.text)
      let mr := urlsMetaGo ⟨none, none, none⟩ rest
      match mr.2 with
      | [] => tail
      | hb :: after =>
        if startsS "Bonus Points" hb.text then
          let rr := folderRowGo (fun t => startsS "Units:" t) [] hb.page hb.page after
          let rows := parse_block_rows rr.1
          if rows.isEmpty then tail
          else
            let title_res : Option String :=
              if startsS "NR " title then some "NR"
              else if startsS "R " title then some "R"
              else none
            ⟨year, title_res.orElse (fun _ => hintRes), hintSp, title, units, mr.1.season,
              mr.1.quota, mr.1.weapon, rows, lr.page, rr.2⟩ :: tail
        else tail
    else tail

/-- Model of parse_pdf_blocks of import_ndow_urls.py on the per-page
text supplied by the external extraction layer, with the classification
hints derived from the source URL by the external helpers. -/
def parse_pdf_blocks (year : Nat) (url fname : String) (pages : List String) : List UrlBlock :=
  scanUrls year (infer_residency_from_url url) (infer_species_from_name fname) none
    (normalizePages pages)

/-! ### Helper lemmas -/

/-- Membership is unchanged by the final stable sort of parse_block_rows. -/
theorem mem_parse_block_rows {r : Row} {ls : List String} :
    r ∈ parse_block_rows ls ↔ r ∈ reconstructRows ls :=
  (List.perm_insertionSort bpLE (reconstructRows ls)).mem_iff

/-- Unfolding lemma for one step of reconstructRows. -/
theorem reconstructRows_cons (line : String) (rest : List String) :
    reconstructRows (line :: rest) =
      match rowOfNums (ints_from_line line) with
      | none => reconstructRows rest
      | some r => r :: reconstructRows rest := rfl

/-- Any row produced by rowOfNums satisfies the sum invariant and has
both choice lists of length exactly 5. -/
theorem rowOfNums_spec {ns : List Nat} {r : Row} (h : rowOfNums ns = some r) :
    r.totalApplicants = r.totalByChoice.sum ∧
      r.successfulByChoice.length = 5 ∧ r.totalByChoice.length = 5 := by
  match ns with
  | [] => simp [rowOfNums] at h
  | bp :: t =>
    simp only [rowOfNums] at h
    split at h
    · exact absurd h (by simp)
    · rename_i hlen
      cases h
      refine ⟨rfl, ?_, ?_⟩
      · simp only [List.length_take, List.length_append, List.length_cons, List.length_nil]
        omega
      · simp only [List.length_take, List.length_drop]
        omega

/-- Every reconstructed row satisfies the sum invariant. -/
theorem reconstructRows_total {ls : List String} {r : Row}
    (h : r ∈ reconstructRows ls) : r.totalApplicants = r.totalByChoice.sum := by
  induction ls with
  | nil => simp [reconstructRows] at h
  | cons line rest ih =>
    simp only [reconstructRows] at h
    cases hr : rowOfNums (ints_from_line line) with
    | none => rw [hr] at h; exact ih h
    | some r0 =>
      rw [hr] at h
      rcases List.mem_cons.mp h with h1 | h1
      · exact h1 ▸ (rowOfNums_spec hr).1
      · exact ih h1

/-- The stability property of parse_block_rows: rows of any given bp
appear in the output exactly as they appear among the reconstructed
rows. -/
theorem parse_block_rows_filter (ls : List String) (n : Nat) :
    (parse_block_rows ls).filter (fun r => r.bp == n) =
      (reconstructRows ls).filter (fun r => r.bp == n) := by
  have hperm :
      List.Perm ((parse_block_rows ls).filter (fun r => r.bp == n))
        ((reconstructRows ls).filter (fun r => r.bp == n)) :=
    (List.perm_insertionSort bpLE (reconstructRows ls)).filter _
  have hpw : ((reconstructRows ls).filter (fun r => r.bp == n)).Pairwise bpLE := by
    apply List.pairwise_of_forall_mem_list
    intro a ha b hb
    have ha2 := (List.mem_filter.mp ha).2
    have hb2 := (List.mem_filter.mp hb).2
    simp only [beq_iff_eq] at ha2 hb2
    show a.bp ≤ b.bp
    omega
  have hsub : List.Sublist ((reconstructRows ls).filter (fun r => r.bp == n))
      (parse_block_rows ls) :=
    List.sublist_insertionSort hpw (List.filter_sublist _)
  have hsub2 := hsub.filter (fun r => r.bp == n)
  rw [List.filter_filter] at hsub2
  simp only [Bool.and_self] at hsub2
  exact (hsub2.eq_of_length hperm.length_eq.symm).symm

/-- Digits are unchanged by Char.toLower. -/
theorem digit_toLower (c : Char) (h : c.isDigit = true) : c.toLower = c := by
  simp only [Char.isDigit, Bool.and_eq_true, decide_eq_true_eq] at h
  have h2 : c.val.toNat ≤ 57 := by
    have := h.2
    simp only [UInt32.le_def, BitVec.le_def] at this
    exact this
  unfold Char.toLower
  have h3 : ¬(Char.toNat c ≥ 65 ∧ Char.toNat c ≤ 90) := by
    unfold Char.toNat
    omega
  simp [h3]

/-- Lowercasing a non-empty digit string leaves it unchanged. -/
theorem toLowerS_digits {s : String} (h : allDigits s = true) : toLowerS s = s := by
  simp only [allDigits, Bool.and_eq_true, List.all_eq_true] at h
  have : s.data.map Char.toLower = s.data := by
    calc s.data.map Char.toLower = s.data.map id :=
        List.map_congr_left (fun c hc => digit_toLower c (h.2 c hc))
      _ = s.data := List.map_id s.data
  unfold toLowerS
  rw [this]

/-- Python's strip is idempotent. -/
theorem trimS_idem (s : String) : trimS (trimS s) = trimS s := by
  unfold trimS
  congr 1
  set u := s.data.dropWhile Char.isWhitespace with hu
  have hA : (u.reverse.dropWhile Char.isWhitespace).reverse =
      List.rdropWhile Char.isWhitespace u := rfl
  set A := (u.reverse.dropWhile Char.isWhitespace).reverse with hAdef
  have hu_self : u.dropWhile Char.isWhitespace = u := by
    rw [hu]
    exact List.dropWhile_idempotent _ _
  have hApre : List.IsPrefix A u := by
    rw [hA]
    exact List.rdropWhile_prefix _ _
  have hA_self : A.dropWhile Char.isWhitespace = A := by
    rw [List.dropWhile_eq_self_iff]
    intro hl
    have hul : 0 < u.length := Nat.lt_of_lt_of_le hl hApre.length_le
    have hget : A.get ⟨0, hl⟩ = u.get ⟨0, hul⟩ := by
      simp only [List.get_eq_getElem]
      exact hApre.getElem hl
    rw [hget]
    have := List.dropWhile_eq_self_iff.mp hu_self hul
    exact this
  have hArev_self : A.reverse.dropWhile Char.isWhitespace = A.reverse := by
    have : A.reverse = u.reverse.dropWhile Char.isWhitespace := by
      rw [hAdef, List.reverse_reverse]
    rw [this]
    exact List.dropWhile_idempotent _ _
  show ((((A.dropWhile Char.isWhitespace).reverse).dropWhile Char.isWhitespace)).reverse = A
  rw [hA_self, hArev_self, List.reverse_reverse]

/-- Every block kept by scanText has a non-empty rows list that came out
of parse_block_rows. -/
theorem scanText_mem : ∀ {l : List LineRec} {b : TextBlock}, b ∈ scanText l →
    b.rows ≠ [] ∧ ∃ rls, b.rows = parse_block_rows rls := by
  intro l
  induction l using scanText.induct with
  | case1 => intro b h; simp [scanText] at h
  | case2 lr rest hanchor mr rr rows hempty =>
    rename_i ih
    intro b h
    rw [scanText, if_pos hanchor] at h
    dsimp only at h
    have hempty2 :
        (parse_block_rows (textRowGo [] (textMetaGo emptyTextMeta rest).2).1).isEmpty = true :=
      hempty
    rw [if_pos hempty2] at h
    exact ih h
  | case3 lr rest hanchor mr rr rows hne =>
    rename_i ih
    intro b h
    rw [scanText, if_pos hanchor] at h
    dsimp only at h
    have hne2 :
        ¬(parse_block_rows (textRowGo [] (textMetaGo emptyTextMeta rest).2).1).isEmpty = true :=
      hne
    rw [if_neg hne2] at h
    rcases List.mem_cons.mp h with h1 | h1
    · subst h1
      constructor
      · simpa using hne2
      · exact ⟨_, rfl⟩
    · exact ih h1
  | case4 lr rest hanchor ih =>
    intro b h
    rw [scanText, if_neg hanchor] at h
    exact ih h


/-- Every block kept by scanFolder has a non-empty rows list that came
out of parse_block_rows. -/
theorem scanFolder_mem : ∀ {y : Nat} {l : List LineRec} {b : FolderBlock},
    b ∈ scanFolder y l → b.rows ≠ [] ∧ ∃ rls, b.rows = parse_block_rows rls := by
  intro y l
  induction l with
  | nil => intro b h; simp [scanFolder] at h
  | cons lr rest ih =>
    intro b h
    rw [scanFolder] at h
    dsimp only at h
    split at h
    · split at h
      · exact ih h
      · split at h
        · split at h
          · exact ih h
          · rename_i hne
            rcases List.mem_cons.mp h with h1 | h1
            · subst h1
              exact ⟨by simpa using hne, ⟨_, rfl⟩⟩
            · exact ih h1
        · exact ih h
    · exact ih h

/-- Every block kept by scanUrls has a non-empty rows list coming out of
parse_block_rows, carries the external species hint verbatim, and its
residency is the title prefix when present and the external hint
otherwise. -/
theorem scanUrls_mem : ∀ {y : Nat} {hr : Option String} {hs : String}
    {p : Option String} {l : List LineRec} {b : UrlBlock}, b ∈ scanUrls y hr hs p l →
    (b.rows ≠ [] ∧ ∃ rls, b.rows = parse_block_rows rls) ∧
      b.species = hs ∧
      b.residency = (if startsS "NR " b.title then some "NR"
        else if startsS "R " b.title then some "R" else hr) := by
  intro y hr hs p l
  induction l generalizing p with
  | nil => intro b h; simp [scanUrls] at h
  | cons lr rest ih =>
    intro b h
    rw [scanUrls] at h
    dsimp only at h
    split at h
    · split at h
      · exact ih h
      · split at h
        · split at h
          · exact ih h
          · rename_i hne
            rcases List.mem_cons.mp h with h1 | h1
            · subst h1
              refine ⟨⟨by simpa using hne, ⟨_, rfl⟩⟩, rfl, ?_⟩
              show Option.orElse _ _ = _
              split
              · rfl
              · split
                · rfl
                · rfl
            · exact ih h1
        · exact ih h
    · exact ih h

/-! ### Claims -/

/-- C2: a row-line yielding at least 6 integers produces exactly one
Row: bp is the first integer, totalByChoice the last 5, and
successfulByChoice the integers in between, right-padded with zeros and
truncated to length 5; both lists have length exactly 5. -/
theorem claim_C2 (line : String) (h : 6 ≤ (ints_from_line line).length) :
    parse_block_rows [line] =
      [⟨(ints_from_line line).headD 0,
        ((ints_from_line line).tail.take ((ints_from_line line).tail.length - 5) ++
            [0, 0, 0, 0, 0]).take 5,
        (ints_from_line line).tail.drop ((ints_from_line line).tail.length - 5),
        ((ints_from_line line).tail.drop ((ints_from_line line).tail.length - 5)).sum⟩] ∧
      ((ints_from_line line).tail.drop ((ints_from_line line).tail.length - 5)).length = 5 ∧
      (((ints_from_line line).tail.take ((ints_from_line line).tail.length - 5) ++
          [0, 0, 0, 0, 0]).take 5).length = 5 := by
  cases hns : ints_from_line line with
  | nil => rw [hns] at h; simp at h
  | cons a t =>
    rw [hns] at h
    simp only [List.length_cons] at h
    have ht : 5 ≤ t.length := by omega
    have hdrop : (t.drop (t.length - 5)).take 5 = t.drop (t.length - 5) := by
      apply List.take_of_length_le
      simp only [List.length_drop]
      omega
    refine ⟨?_, ?_, ?_⟩
    · unfold parse_block_rows
      rw [reconstructRows_cons]
      simp only [hns, rowOfNums]
      rw [if_neg (by omega : ¬t.length < 5)]
      simp only [reconstructRows, List.insertionSort, List.orderedInsert, hdrop,
        List.headD_cons, List.tail_cons]
    · simp only [hns, List.tail_cons, List.length_drop]
      omega
    · simp only [hns, List.tail_cons, List.length_take, List.length_append,
        List.length_cons, List.length_nil]
      omega

/-- Witness for C2 at the row-line from the spec. -/
theorem claim_C2_witness :
    6 ≤ (ints_from_line "5 1 412 300 250 200 150").length ∧
    parse_block_rows ["5 1 412 300 250 200 150"] =
      [⟨5, [1, 0, 0, 0, 0], [412, 300, 250, 200, 150], 1312⟩] :=
  ⟨by decide, ((claim_C2 "5 1 412 300 250 200 150" (by decide)).1).trans (by decide)⟩

/-- C6: the rows emitted by parse_block_rows are sorted non-decreasing
by bp, are a permutation of the reconstructed rows (so equal-bp rows are
all retained, unmerged), and rows of any fixed bp keep their original
relative order (stability). -/
theorem claim_C6 (ls : List String) :
    List.Sorted bpLE (parse_block_rows ls) ∧
      List.Perm (parse_block_rows ls) (reconstructRows ls) ∧
      ∀ n, (parse_block_rows ls).filter (fun r => r.bp == n) =
        (reconstructRows ls).filter (fun r => r.bp == n) :=
  ⟨List.sorted_insertionSort bpLE (reconstructRows ls),
    List.perm_insertionSort bpLE (reconstructRows ls),
    fun n => parse_block_rows_filter ls n⟩

/-- C7: a row-line yielding fewer than 6 integers contributes no Row
wherever it appears among the candidate row-lines. -/
theorem claim_C7 (line : String) (pre post : List String)
    (h : (ints_from_line line).length < 6) :
    parse_block_rows (pre ++ line :: post) = parse_block_rows (pre ++ post) := by
  have hnone : rowOfNums (ints_from_line line) = none := by
    cases hns : ints_from_line line with
    | nil => simp [rowOfNums]
    | cons a t =>
      rw [hns] at h
      simp only [List.length_cons] at h
      simp only [rowOfNums]
      rw [if_pos (by omega : t.length < 5)]
  unfold parse_block_rows
  congr 1
  induction pre with
  | nil =>
    simp only [List.nil_append]
    rw [reconstructRows_cons, hnone]
  | cons p ps ih =>
    simp only [List.cons_append, reconstructRows_cons]
    cases rowOfNums (ints_from_line p) with
    | none => exact ih
    | some r0 => rw [ih]

/-- Witness for C7 at the row-line from the spec. -/
theorem claim_C7_witness :
    (ints_from_line "3 1,176").length < 6 ∧
    parse_block_rows ["3 1,176", "5 1 412 300 250 200 150"] =
      parse_block_rows ["5 1 412 300 250 200 150"] :=
  ⟨by decide, claim_C7 "3 1,176" [] ["5 1 412 300 250 200 150"] (by decide)⟩

/-- C1 (counterexample): in the table-extraction variant, a data row
carrying 9999 in its trailing Total Applicants column is emitted with
totalApplicants = 9999, read from that column, although its
totalByChoice sums to 1312 - so totalApplicants is not always computed
as the sum of totalByChoice in every parser variant. -/
theorem claim_C1_counterexample :
    normalize_table [[some "Bonus Points", some "Total Applicants"],
        [some "5", some "1", none, none, none, none, some "412", some "300", some "250",
         some "200", some "150", some "9999"]] =
      some [⟨5, [1, 0, 0, 0, 0], [412, 300, 250, 200, 150], 9999⟩] ∧
      (9999 : Int) ≠ ([412, 300, 250, 200, 150] : List Int).sum :=
  ⟨by decide, by decide⟩

/-- C1 (amended): in the three text-based variants - everywhere
parse_block_rows is used, hence in every Row of every block emitted by
parse_ndow_pdf_text.py, parse_ndow_folder.py and import_ndow_urls.py -
totalApplicants equals the sum of the 5 entries of totalByChoice and is
computed from the reconstructed totals; the table-extraction variant
(normalize_table of parse_ndow_pdf.py) instead reads totalApplicants
from the trailing 11th cell, where the invariant can fail. -/
theorem claim_C1 :
    (∀ (ls : List String) (r : Row), r ∈ parse_block_rows ls →
        r.totalApplicants = r.totalByChoice.sum) ∧
      (∀ (l : List LineRec) (b : TextBlock) (r : Row), b ∈ scanText l → r ∈ b.rows →
        r.totalApplicants = r.totalByChoice.sum) ∧
      (∀ (y : Nat) (l : List LineRec) (b : FolderBlock) (r : Row), b ∈ scanFolder y l →
        r ∈ b.rows → r.totalApplicants = r.totalByChoice.sum) ∧
      (∀ (y : Nat) (hr : Option String) (hs : String) (p : Option String) (l : List LineRec)
        (b : UrlBlock) (r : Row), b ∈ scanUrls y hr hs p l → r ∈ b.rows →
        r.totalApplicants = r.totalByChoice.sum) := by
  have base : ∀ (ls : List String) (r : Row), r ∈ parse_block_rows ls →
      r.totalApplicants = r.totalByChoice.sum := fun ls r h =>
    reconstructRows_total (mem_parse_block_rows.mp h)
  refine ⟨base, ?_, ?_, ?_⟩
  · intro l b r hb hr
    obtain ⟨rls, hrow⟩ := (scanText_mem hb).2
    exact base rls r (hrow ▸ hr)
  · intro y l b r hb hr
    obtain ⟨rls, hrow⟩ := (scanFolder_mem hb).2
    exact base rls r (hrow ▸ hr)
  · intro y hres hs p l b r hb hr
    obtain ⟨rls, hrow⟩ := ((scanUrls_mem hb).1).2
    exact base rls r (hrow ▸ hr)

/-- Witness for C1 at the row-line from the spec. -/
theorem claim_C1_witness :
    (⟨5, [1, 0, 0, 0, 0], [412, 300, 250, 200, 150], 1312⟩ : Row) ∈
      parse_block_rows ["5 1 412 300 250 200 150"] ∧
    (⟨5, [1, 0, 0, 0, 0], [412, 300, 250, 200, 150], 1312⟩ : Row).totalApplicants =
      (⟨5, [1, 0, 0, 0, 0], [412, 300, 250, 200, 150], 1312⟩ : Row).totalByChoice.sum :=
  ⟨by decide, claim_C1.1 ["5 1 412 300 250 200 150"] _ (by decide)⟩

/-- C5: every emitted block, in all three line-based variants, has a
non-empty rows list; a block whose reconstruction yields zero rows is
absent from the output. -/
theorem claim_C5 :
    (∀ (l : List LineRec) (b : TextBlock), b ∈ scanText l → b.rows ≠ []) ∧
      (∀ (y : Nat) (l : List LineRec) (b : FolderBlock), b ∈ scanFolder y l → b.rows ≠ []) ∧
      (∀ (y : Nat) (hr : Option String) (hs : String) (p : Option String) (l : List LineRec)
        (b : UrlBlock), b ∈ scanUrls y hr hs p l → b.rows ≠ []) :=
  ⟨fun _ _ h => (scanText_mem h).1, fun _ _ _ h => (scanFolder_mem h).1,
    fun _ _ _ _ _ _ h => ((scanUrls_mem h).1).1⟩

/-- Witness for C5 on a small concrete document. -/
theorem claim_C5_witness :
    (⟨2025, "R", some "elk", some "A", "R Elk A", none, none, none, none,
        [⟨1, [0, 0, 0, 0, 0], [2, 3, 4, 5, 6], 20⟩], 1, 1⟩ : FolderBlock) ∈
      scanFolder 2025 [⟨1, "R Elk A"⟩, ⟨1, "Bonus Points"⟩, ⟨1, "1 2 3 4 5 6"⟩] ∧
    (⟨2025, "R", some "elk", some "A", "R Elk A", none, none, none, none,
        [⟨1, [0, 0, 0, 0, 0], [2, 3, 4, 5, 6], 20⟩], 1, 1⟩ : FolderBlock).rows ≠ [] :=
  ⟨by decide, claim_C5.2.1 2025 [⟨1, "R Elk A"⟩, ⟨1, "Bonus Points"⟩, ⟨1, "1 2 3 4 5 6"⟩] _
    (by decide)⟩

/-- C8 (counterexample): the URL-variant block whose captured title is
"NR Elk Antlered" - a title encoding species elk (the folder variant's
own title analysis maps its second token to "elk") - is emitted with
species "deer" when the external URL-derived hint says "deer": the
title-derived species does not override the external hint. -/
theorem claim_C8_counterexample :
    infer_species_from_name "Mule-Deer-Bonus-Point-Trend-NonResident-2025.pdf" = "deer" ∧
    species_map_get (toLowerS "Elk") = "elk" ∧
    (scanUrls 2025 (some "NR") "deer" none
        [⟨1, "NR Elk Antlered"⟩, ⟨1, "Units: 061"⟩, ⟨1, "Bonus Points"⟩,
         ⟨1, "1 2 3 4 5 6"⟩]).map (fun b => (b.title, b.species)) =
      [("NR Elk Antlered", "deer")] ∧
    "deer" ≠ "elk" :=
  ⟨by decide, by decide, by decide, by decide⟩

/-- C8 (amended): in the URL variant, only residency is overridden by
the captured title (its "NR "/"R " prefix, when present, wins over the
external hint); the species of every emitted block is always the
external URL-derived hint, never derived from the title. -/
theorem claim_C8 (y : Nat) (hr : Option String) (hs : String) (p : Option String)
    (l : List LineRec) (b : UrlBlock) (h : b ∈ scanUrls y hr hs p l) :
    b.species = hs ∧
      b.residency = (if startsS "NR " b.title then some "NR"
        else if startsS "R " b.title then some "R" else hr) :=
  (scanUrls_mem h).2

/-- Witness for C8: a block with no residency-encoding title takes the
external residency hint (here none) and the external species hint. -/
theorem claim_C8_witness :
    (⟨2025, none, "elk", "Unknown Title", "5", none, none, none,
        [⟨1, [0, 0, 0, 0, 0], [2, 3, 4, 5, 6], 20⟩], 1, 1⟩ : UrlBlock) ∈
      scanUrls 2025 none "elk" none
        [⟨1, "Units: 5"⟩, ⟨1, "Bonus Points"⟩, ⟨1, "1 2 3 4 5 6"⟩] ∧
    (⟨2025, none, "elk", "Unknown Title", "5", none, none, none,
        [⟨1, [0, 0, 0, 0, 0], [2, 3, 4, 5, 6], 20⟩], 1, 1⟩ : UrlBlock).species = "elk" ∧
    (⟨2025, none, "elk", "Unknown Title", "5", none, none, none,
        [⟨1, [0, 0, 0, 0, 0], [2, 3, 4, 5, 6], 20⟩], 1, 1⟩ : UrlBlock).residency = none :=
  ⟨by decide,
    (claim_C8 2025 none "elk" none
      [⟨1, "Units: 5"⟩, ⟨1, "Bonus Points"⟩, ⟨1, "1 2 3 4 5 6"⟩] _ (by decide)).1,
    ((claim_C8 2025 none "elk" none
      [⟨1, "Units: 5"⟩, ⟨1, "Bonus Points"⟩, ⟨1, "1 2 3 4 5 6"⟩] _ (by decide)).2).trans
      (by decide)⟩

/-- C9: the parsing core is deterministic - it is a pure function of
the per-page text input, so any two runs on equal inputs produce equal
output lists, in all three line-based variants. -/
theorem claim_C9 (p1 p2 : List String) (y : Nat) (url fname : String) (h : p1 = p2) :
    parse_pdf p1 = parse_pdf p2 ∧
      parse_single_pdf y p1 = parse_single_pdf y p2 ∧
      parse_pdf_blocks y url fname p1 = parse_pdf_blocks y url fname p2 := by
  subst h
  exact ⟨rfl, rfl, rfl⟩

/-- Witness for C9 on a concrete one-page document. -/
theorem claim_C9_witness :
    parse_single_pdf 2025 ["R Elk A\nBonus Points\n1 2 3 4 5 6"] =
      parse_single_pdf 2025 ["R Elk A\nBonus Points\n1 2 3 4 5 6"] :=
  (claim_C9 ["R Elk A\nBonus Points\n1 2 3 4 5 6"]
    ["R Elk A\nBonus Points\n1 2 3 4 5 6"] 2025 "u" "f" rfl).2.1

/-- C10: clean_int turns a missing cell, a blank cell and an
unparseable cell into 0, and the data-row loop of normalize_table emits
every row whose first cell is a digit string, padding its trailing
cells with zeros to 11 before slicing, so that both choice lists always
have length 5 and no such row is discarded for having too few columns. -/
theorem claim_C10 :
    clean_int none = 0 ∧
      (∀ s : String, (removeOcc "," (trimS s)).data.isEmpty = true → clean_int (some s) = 0) ∧
      (∀ s : String, parseNum (removeOcc "," (trimS s)).data = none → clean_int (some s) = 0) ∧
      (∀ (row : List (Option String)) (rest : List (List (Option String))),
        allDigits (trimS ((row.headD none).getD "")) = true →
        normRowsLoop (row :: rest) = tableDataRow row :: normRowsLoop rest ∧
          (tableDataRow row).successfulByChoice.length = 5 ∧
          (tableDataRow row).totalByChoice.length = 5) := by
  refine ⟨rfl, ?_, ?_, ?_⟩
  · intro s h
    simp only [clean_int]
    rw [if_pos h]
  · intro s h
    simp only [clean_int]
    split
    · rfl
    · rw [h]
  · intro row rest h
    have hfirst := h
    have htotal : toLowerS (trimS ((row.headD none).getD "")) ≠ "total" := by
      rw [toLowerS_digits hfirst]
      intro hcontra
      rw [hcontra] at hfirst
      exact absurd hfirst (by decide)
    have hne : (trimS ((row.headD none).getD "")).data.isEmpty = false := by
      simp only [allDigits, Bool.and_eq_true, Bool.not_eq_true'] at hfirst
      exact hfirst.1
    have htrim : allDigits (trimS (trimS ((row.headD none).getD ""))) = true := by
      rw [trimS_idem]
      exact hfirst
    refine ⟨?_, ?_, ?_⟩
    · have hcond : ((trimS ((row.headD none).getD "")).data.isEmpty ||
          !allDigits (trimS (trimS ((row.headD none).getD "")))) = false := by
        rw [hne, htrim]
        rfl
      simp only [normRowsLoop]
      rw [if_neg htotal, if_neg (fun hc => by rw [hc] at hcond; simp at hcond)]
    · simp only [tableDataRow, List.length_take, List.length_append, List.length_replicate]
      omega
    · simp only [tableDataRow, List.length_take, List.length_drop, List.length_append,
        List.length_replicate]
      omega

/-- Witness for C10: a data row with only its first cell present is
emitted with all-zero lists and totalApplicants 0. -/
theorem claim_C10_witness :
    allDigits (trimS (((([some "7"] : List (Option String))).headD none).getD "")) = true ∧
    normRowsLoop [[some "7"]] = [⟨7, [0, 0, 0, 0, 0], [0, 0, 0, 0, 0], 0⟩] :=
  ⟨by decide, by
    have h := (claim_C10.2.2.2 [some "7"] [] (by decide)).1
    rw [h]
    decide⟩

/-- A matched prefix pins down the first character. -/
theorem leadsWith_head {a : Char} {as s : List Char} (h : leadsWith (a :: as) s = true) :
    ∃ cs, s = a :: cs := by
  cases s with
  | nil => simp [leadsWith] at h
  | cons c cs =>
    simp only [leadsWith, Bool.and_eq_true, beq_iff_eq] at h
    exact ⟨cs, by rw [h.1]⟩

/-- A line starting with "Units:" does not start with "Bonus Points". -/
theorem units_not_bonus {s : String} (h : startsS "Units:" s = true) :
    startsS "Bonus Points" s = false := by
  unfold startsS at h
  rw [show "Units:".data = 'U' :: ['n', 'i', 't', 's', ':'] from by decide] at h
  obtain ⟨cs, hcs⟩ := leadsWith_head h
  unfold startsS
  rw [show "Bonus Points".data = 'B' :: "onus Points".data from by decide, hcs]
  simp only [leadsWith]
  rw [show ('B' == 'U') = false from by decide]
  simp

/-- A line starting with "Units:" does not start with "Total". -/
theorem units_not_total {s : String} (h : startsS "Units:" s = true) :
    startsS "Total" s = false := by
  unfold startsS at h
  rw [show "Units:".data = 'U' :: ['n', 'i', 't', 's', ':'] from by decide] at h
  obtain ⟨cs, hcs⟩ := leadsWith_head h
  unfold startsS
  rw [show "Total".data = 'T' :: "otal".data from by decide, hcs]
  simp only [leadsWith]
  rw [show ('T' == 'U') = false from by decide]
  simp

/-- A line matching the residency anchor does not start with "Total". -/
theorem resAnchor_not_total {s : String} (h : matchResAnchor s = true) :
    startsS "Total" s = false := by
  unfold matchResAnchor at h
  split at h
  case h_1 rest heq =>
    unfold startsS
    rw [show "Total".data = 'T' :: "otal".data from by decide, heq]
    simp only [leadsWith]
    rw [show ('T' == 'N') = false from by decide]
    simp
  case h_2 rest heq =>
    unfold startsS
    rw [show "Total".data = 'T' :: "otal".data from by decide, heq]
    simp only [leadsWith]
    rw [show ('T' == 'R') = false from by decide]
    simp
  case h_3 => simp at h

/-- The urls metadata loop walks over lines that are neither sentinel
nor anchor, only updating its metadata. -/
theorem urlsMetaGo_append (m : UMeta) (mid rest : List LineRec)
    (hmid : ∀ l ∈ mid, startsS "Bonus Points" l.text = false ∧ startsS "Units:" l.text = false) :
    urlsMetaGo m (mid ++ rest) =
      urlsMetaGo (mid.foldl (fun mm l => updUMeta mm l.text) m) rest := by
  induction mid generalizing m with
  | nil => rfl
  | cons l mid2 ih =>
    have h1 := hmid l (List.mem_cons_self l mid2)
    rw [List.cons_append, urlsMetaGo]
    rw [if_neg (by simp [h1.1]), if_neg (by simp [h1.2])]
    rw [List.foldl_cons]
    exact ih _ (fun x hx => hmid x (List.mem_cons_of_mem l hx))

/-- The urls outer scan walks over non-anchor lines, only updating the
previous-nonempty-line tracking. -/
theorem scanUrls_append (y : Nat) (hr : Option String) (hs : String) (p : Option String)
    (mid rest : List LineRec) (hmid : ∀ l ∈ mid, startsS "Units:" l.text = false) :
    scanUrls y hr hs p (mid ++ rest) = scanUrls y hr hs (mid.foldl updPrev p) rest := by
  induction mid generalizing p with
  | nil => rfl
  | cons l mid2 ih =>
    have h1 := hmid l (List.mem_cons_self l mid2)
    rw [List.cons_append, scanUrls]
    rw [if_neg (by simp [h1])]
    rw [List.foldl_cons]
    exact ih _ (fun x hx => hmid x (List.mem_cons_of_mem l hx))

/-- C3 (amended): in the import_ndow_urls.py variant - the variant with
the anchor guard - a block whose "Units:" anchor is matched but in which
no "Bonus Points" line appears before the next anchor line (or the end
of the stream) produces no Record: the scan of the whole stretch equals
the scan restarted at the next anchor (with the previous-nonempty-line
tracking threaded through), so the block vanishes and the new anchor is
processed as the start of its own block.  In the parse_ndow_folder.py
variant the metadata scan has no anchor guard and the original claim
fails (see the counterexample). -/
theorem claim_C3 (y : Nat) (hr : Option String) (hs : String) (p : Option String)
    (a : LineRec) (mid rest : List LineRec)
    (ha : startsS "Units:" a.text = true)
    (hmid : ∀ l ∈ mid, startsS "Bonus Points" l.text = false ∧ startsS "Units:" l.text = false)
    (hrest : rest = [] ∨ ∃ r rs, rest = r :: rs ∧ startsS "Units:" r.text = true) :
    scanUrls y hr hs p (a :: (mid ++ rest)) =
      scanUrls y hr hs ((a :: mid).foldl updPrev p) rest := by
  rw [scanUrls, if_pos ha]
  dsimp only
  rw [urlsMetaGo_append _ _ _ hmid]
  have htail : scanUrls y hr hs (updPrev p a) (mid ++ rest) =
      scanUrls y hr hs ((a :: mid).foldl updPrev p) rest := by
    rw [List.foldl_cons]
    exact scanUrls_append y hr hs (updPrev p a) mid rest (fun l hl => (hmid l hl).2)
  rcases hrest with hrest | ⟨r, rs, hrs, hru⟩
  · subst hrest
    rw [show urlsMetaGo (mid.foldl (fun mm l => updUMeta mm l.text) ⟨none, none, none⟩) [] =
      (mid.foldl (fun mm l => updUMeta mm l.text) ⟨none, none, none⟩, ([] : List LineRec)) from rfl]
    exact htail
  · subst hrs
    rw [urlsMetaGo]
    rw [if_neg (by simp [units_not_bonus hru]), if_pos hru]
    dsimp only
    rw [if_neg (by simp [units_not_bonus hru])]
    exact htail

/-- C3 (counterexample): in the parse_ndow_folder.py variant, the block
anchored at "R Elk A" is immediately followed by the next anchor
"R Deer B" with no "Bonus Points" sentinel in between, yet a Record
titled "R Elk A" is emitted, because extract_metadata scans past the
new anchor to the later "Bonus Points" line. -/
theorem claim_C3_counterexample :
    matchResAnchor "R Elk A" = true ∧ matchResAnchor "R Deer B" = true ∧
    startsS "Bonus Points" "R Deer B" = false ∧
    (scanFolder 2025 [⟨1, "R Elk A"⟩, ⟨1, "R Deer B"⟩, ⟨1, "Bonus Points"⟩,
        ⟨1, "1 2 3 4 5 6"⟩]).map (fun b => b.title) = ["R Elk A", "R Deer B"] :=
  ⟨by decide, by decide, by decide, by decide⟩

/-- Witness for C3 on a concrete stream: a "Units:" block holding only
a Season line before the next "Units:" anchor contributes nothing. -/
theorem claim_C3_witness :
    scanUrls 2025 none "elk" none [⟨1, "Units: 5"⟩, ⟨1, "Season: X"⟩, ⟨2, "Units: 6"⟩] =
      scanUrls 2025 none "elk"
        (([⟨1, "Units: 5"⟩, ⟨1, "Season: X"⟩] : List LineRec).foldl updPrev none)
        [⟨2, "Units: 6"⟩] :=
  claim_C3 2025 none "elk" none ⟨1, "Units: 5"⟩ [⟨1, "Season: X"⟩] [⟨2, "Units: 6"⟩]
    (by decide) (by decide) (Or.inr ⟨⟨2, "Units: 6"⟩, [], rfl, by decide⟩)

/-- The row loop of the folder and urls variants, run into a stretch of
ordinary lines followed by an anchor: it collects exactly the row lines
of the stretch and reports the page of the line immediately preceding
the anchor (prev when the stretch is empty). -/
theorem folderRowGo_append (anchorP : String → Bool) (acc : List String) (ep0 prev : Nat)
    (mid : List LineRec) (a : LineRec) (rest : List LineRec)
    (hmid : ∀ l ∈ mid, startsS "Total" l.text = false ∧ anchorP l.text = false)
    (hat : startsS "Total" a.text = false) (haa : anchorP a.text = true) :
    folderRowGo anchorP acc ep0 prev (mid ++ a :: rest) =
      (acc ++ (mid.filter (fun l => rowStart l.text)).map (fun l => l.text),
        (mid.map (fun l => l.page)).getLastD prev) := by
  induction mid generalizing acc prev with
  | nil =>
    rw [List.nil_append, folderRowGo]
    rw [if_neg (by simp [hat]), if_pos haa]
    simp
  | cons l mid2 ih =>
    have h1 := hmid l (List.mem_cons_self l mid2)
    rw [List.cons_append, folderRowGo]
    rw [if_neg (by simp [h1.1]), if_neg (by simp [h1.2])]
    have ih2 := fun acc2 prev2 => ih acc2 prev2 (fun x hx => hmid x (List.mem_cons_of_mem l hx))
    by_cases hrow : rowStart l.text = true
    · rw [if_pos hrow, ih2]
      rw [List.map_cons, List.getLastD_cons]
      simp [List.filter_cons, hrow]
    · rw [if_neg hrow, ih2]
      rw [List.map_cons, List.getLastD_cons]
      simp [List.filter_cons, hrow]

/-- The row loop of the pdf_text variant, run into a stretch of
ordinary lines followed by the anchor: it collects exactly the row
lines of the stretch, reports the anchor line's own page as endPage,
and leaves the anchor unconsumed. -/
theorem textRowGo_append (acc : List String) (mid : List LineRec) (a : LineRec)
    (rest : List LineRec)
    (hmid : ∀ l ∈ mid, startsS "Total" l.text = false ∧ l.text ≠ "NR Elk Antlered")
    (ha : a.text = "NR Elk Antlered") :
    textRowGo acc (mid ++ a :: rest) =
      (acc ++ (mid.filter (fun l => rowStart l.text)).map (fun l => l.text),
        some a.page, a :: rest) := by
  induction mid generalizing acc with
  | nil =>
    rw [List.nil_append, textRowGo]
    rw [if_neg (by rw [ha]; decide), if_pos ha]
    simp
  | cons l mid2 ih =>
    have h1 := hmid l (List.mem_cons_self l mid2)
    rw [List.cons_append, textRowGo]
    rw [if_neg (by simp [h1.1]), if_neg h1.2]
    have ih2 := fun acc2 => ih acc2 (fun x hx => hmid x (List.mem_cons_of_mem l hx))
    by_cases hrow : rowStart l.text = true
    · rw [if_pos hrow, ih2]
      simp [hrow, List.append_assoc]
    · rw [if_neg hrow, ih2]
      simp [hrow]


/-- C4 (amended): when a new anchor is encountered during row
collection before a totals sentinel, the folder and URL variants set
endPage to the page of the line immediately preceding the anchor (the
last page of the collected stretch, defaulting to the page the loop
started from), while the pdf_text variant sets endPage to the anchor
line's own page; in every variant the anchor line is not consumed (the
pdf_text row loop returns the suffix beginning with the anchor, and the
other two variants rescan every line after the block's anchor). -/
theorem claim_C4 :
    (∀ (acc : List String) (ep0 prev : Nat) (mid : List LineRec) (a : LineRec)
        (rest : List LineRec), matchResAnchor a.text = true →
        (∀ l ∈ mid, startsS "Total" l.text = false ∧ matchResAnchor l.text = false) →
        folderRowGo matchResAnchor acc ep0 prev (mid ++ a :: rest) =
          (acc ++ (mid.filter (fun l => rowStart l.text)).map (fun l => l.text),
            (mid.map (fun l => l.page)).getLastD prev)) ∧
    (∀ (acc : List String) (ep0 prev : Nat) (mid : List LineRec) (a : LineRec)
        (rest : List LineRec), startsS "Units:" a.text = true →
        (∀ l ∈ mid, startsS "Total" l.text = false ∧ startsS "Units:" l.text = false) →
        folderRowGo (fun t => startsS "Units:" t) acc ep0 prev (mid ++ a :: rest) =
          (acc ++ (mid.filter (fun l => rowStart l.text)).map (fun l => l.text),
            (mid.map (fun l => l.page)).getLastD prev)) ∧
    (∀ (acc : List String) (mid : List LineRec) (a : LineRec) (rest : List LineRec),
        a.text = "NR Elk Antlered" →
        (∀ l ∈ mid, startsS "Total" l.text = false ∧ l.text ≠ "NR Elk Antlered") →
        textRowGo acc (mid ++ a :: rest) =
          (acc ++ (mid.filter (fun l => rowStart l.text)).map (fun l => l.text),
            some a.page, a :: rest)) := by
  refine ⟨?_, ?_, ?_⟩
  · intro acc ep0 prev mid a rest ha hmid
    exact folderRowGo_append _ _ _ _ _ _ _ hmid (resAnchor_not_total ha) ha
  · intro acc ep0 prev mid a rest ha hmid
    exact folderRowGo_append _ _ _ _ _ _ _ hmid (units_not_total ha) ha
  · intro acc mid a rest ha hmid
    exact textRowGo_append _ _ _ _ hmid ha

/-- C4 (counterexample): in the pdf_text variant, the second anchor
sits on page 2 while the line immediately preceding it is on page 1;
the first emitted block records endPage = some 2 - the anchor line's
own page - and not page 1 as the claim states. -/
theorem claim_C4_counterexample :
    (scanText [⟨1, "NR Elk Antlered"⟩, ⟨1, "Bonus Points"⟩, ⟨1, "1 2 3 4 5 6"⟩,
        ⟨2, "NR Elk Antlered"⟩, ⟨2, "Bonus Points"⟩, ⟨2, "2 3 4 5 6 7"⟩]).map
        (fun b => b.endPage) = [some 2, none] ∧
    (⟨1, "1 2 3 4 5 6"⟩ : LineRec).page = 1 ∧ (2 : Nat) ≠ 1 :=
  ⟨by simp +decide [scanText, textMetaGo, textRowGo, updTextMeta], by decide, by decide⟩

/-- Witness for C4: a row line on page 1 followed by an anchor on page
2 yields endPage 1, the page of the line immediately preceding the
anchor, not the initial value 99. -/
theorem claim_C4_witness :
    folderRowGo matchResAnchor [] 99 99 [⟨1, "7 1 2 3 4 5"⟩, ⟨2, "R Deer B"⟩] =
      (["7 1 2 3 4 5"], 1) :=
  (claim_C4.1 [] 99 99 [⟨1, "7 1 2 3 4 5"⟩] ⟨2, "R Deer B"⟩ [] (by decide)
    (by decide)).trans (by decide)

end Ndow

/-!
Concrete evaluation checks: the embedded definitions behave on small
inputs exactly as the Python scripts do.
-/
example : Ndow.ints_from_line "5 1 412 300 250 200 150" = [5, 1, 412, 300, 250, 200, 150] := by decide
example : Ndow.ints_from_line "3 1,176" = [3, 1176] := by decide
example : Ndow.parse_block_rows ["5 1 412 300 250 200 150"] =
    [⟨5, [1, 0, 0, 0, 0], [412, 300, 250, 200, 150], 1312⟩] := by decide
example : Ndow.parse_block_rows ["3 1,176"] = [] := by decide
example : Ndow.hasFooter "1/5/2026 Page 3 of 5".data = true := by decide
example : Ndow.hasFooter "Page of 5".data = false := by decide
example : Ndow.matchResAnchor "NR Elk Antlered" = true := by decide
example : Ndow.matchResAnchor "Rx" = false := by decide
example : Ndow.matchResAnchor "R  Elk" = true := by decide
example : Ndow.rowStart "12abc" = false := by decide
example : Ndow.rowStart "12 abc" = true := by decide
example : Ndow.trimS "  x y " = "x y" := by decide
example : Ndow.removeOcc "Units:" "Units: 061, 071" = " 061, 071" := by decide
example : Ndow.splitWs "NR Elk Antlered" = ["NR", "Elk", "Antlered"] := by decide
example : Ndow.joinSpace ["a", "b"] = "a b" := by decide
example : Ndow.clean_int none = 0 := by decide
example : Ndow.clean_int (some " 1,176 ") = 1176 := by decide
example : Ndow.clean_int (some "3.7") = 3 := by decide
example : Ndow.clean_int (some "-3.7") = -3 := by decide
example : Ndow.clean_int (some "1e2") = 100 := by decide
example : Ndow.clean_int (some "abc") = 0 := by decide
example : Ndow.clean_int (some "") = 0 := by decide
example : Ndow.normalize_table [[some "Bonus Points", some "Total Applicants"],
    [some "5", some "1", none, none, none, none, some "412", some "300", some "250",
     some "200", some "150", some "9999"]] =
    some [⟨5, [1, 0, 0, 0, 0], [412, 300, 250, 200, 150], 9999⟩] := by decide
example : Ndow.normalizePages ["NR Elk Antlered\nUnits: 061\n\n 1/5/2026 Page 1 of 3", "x"] =
    [⟨1, "NR Elk Antlered"⟩, ⟨1, "Units: 061"⟩, ⟨2, "x"⟩] := by decide
